import Mathlib

/-!
Shallow embedding of the review acquisition engine of this repository
(`main.py` and `src/layer1/scraper.py`), together with proofs about its
window planner, paginated fetch loop, merge/deduplication steps,
rating-balanced selector and weekly bucketizer.

Modelling conventions:

* Python `datetime` values are modelled as integers.  The window planner
  (`date_window`, `_split_into_slices`, `_parse_cli_date`,
  `_parse_window_slices`) only constructs and compares day-aligned
  datetimes (the CLI parses `YYYY-MM-DD` at UTC midnight and all of its
  arithmetic uses whole-day `timedelta` steps), so these functions are
  modelled over integer UTC day numbers (days since 1970-01-01) and
  `timedelta(days=n)` becomes `+ n`.
* Review timestamps (`ReviewRecord.date`) are modelled as integer UTC
  seconds since the epoch (the source builds them with
  `datetime.fromtimestamp(ts, tz=timezone.utc)`); the UTC calendar-day
  truncation performed by `week_bucket` is `Int.fdiv · 86400`.
* Python exceptions are modelled with `Except PyErr`; functions from which
  the source cannot raise are given plain return types.  `_ensure_utc` is
  the identity in this model (every modelled instant is already UTC).
* `json.loads` on a string is modelled by an explicit `loads` oracle
  argument (`none` models `json.JSONDecodeError`, a `ValueError`); all
  other Python-semantics helpers (`truthiness`, subscription, `len`,
  iteration) are defined concretely below.
-/

namespace Milestone2

/-- Python exception kinds observable in the modelled code paths.
`systemExit` carries the message built by the CLI helpers. -/
inductive PyErr
  | typeError
  | indexError
  | valueError
  | keyError
  | systemExit (msg : String)
  deriving Repr, DecidableEq

/-- The `ReviewRecord` dataclass (scraper.py lines 76-93).  `date` is the
UTC timestamp in seconds since the epoch. -/
structure ReviewRecord where
  review_id : String
  title : String
  text : String
  rating : Int
  date : Int
  author : Option String := none
  product_tag : Option String := none
  deriving Repr, DecidableEq

/-- The per-rating dictionary `{score: n for score in range(1, 6)}` used
for `rating_counts` and `per_rating_remaining` (its keys are exactly
1..5). -/
structure RatingCounts where
  n1 : Nat
  n2 : Nat
  n3 : Nat
  n4 : Nat
  n5 : Nat
  deriving Repr, DecidableEq

/-- Dictionary lookup `counts[r]` (total here; every source lookup is
guarded to a key in 1..5). -/
def RatingCounts.get (c : RatingCounts) (r : Int) : Nat :=
  if r = 1 then c.n1
  else if r = 2 then c.n2
  else if r = 3 then c.n3
  else if r = 4 then c.n4
  else if r = 5 then c.n5
  else 0

/-- Dictionary update `counts[r] = v` (no-op outside the keys 1..5, which
the source never attempts). -/
def RatingCounts.set (c : RatingCounts) (r : Int) (v : Nat) : RatingCounts :=
  if r = 1 then { c with n1 := v }
  else if r = 2 then { c with n2 := v }
  else if r = 3 then { c with n3 := v }
  else if r = 4 then { c with n4 := v }
  else if r = 5 then { c with n5 := v }
  else c

/-- Dictionary update `counts[r] += 1`. -/
def RatingCounts.incr (c : RatingCounts) (r : Int) : RatingCounts :=
  c.set r (c.get r + 1)

/-- The dictionary `{score: v for score in range(1, 6)}`. -/
def RatingCounts.const (v : Nat) : RatingCounts :=
  ⟨v, v, v, v, v⟩

/-- Python `counts.values()` in key order 1..5. -/
def RatingCounts.values (c : RatingCounts) : List Nat :=
  [c.n1, c.n2, c.n3, c.n4, c.n5]

/-- The fields of `ScraperConfig` (scraper.py lines 29-50) consulted by the
functions verified here.  `max_reviews` stays an `Int` like the Python
value (it is only ever compared against list lengths). -/
structure ScraperConfig where
  lookback_days : Int := 28
  min_offset_days : Int := 7
  max_reviews : Int := 2000
  per_rating_target : Int := 20
  deriving Repr, DecidableEq

/-- Embedding of `ScraperConfig.date_window` (scraper.py lines 52-73).  Datetimes are
UTC day numbers.  The Python guard `if start_date and end_date` requires
both overrides, because a `datetime` object is always truthy and `None` is
falsy; with at most one override present the code falls through to the
lookback computation, overwriting the local variables.  `reference_date`
is passed explicitly (the source defaults it to `datetime.now(utc)`). -/
def ScraperConfig.date_window (cfg : ScraperConfig) (reference_date : Int)
    (start_date end_date : Option Int) : Except PyErr (Int × Int) :=
  match start_date, end_date with
  | some s, some e =>
    if s > e then .error .valueError else .ok (s, e)
  | _, _ =>
    let endD := reference_date - cfg.min_offset_days
    .ok (endD - cfg.lookback_days, endD)

/-- The `while cursor <= end` loop of `_split_into_slices`
(main.py lines 443-449).  `step` is `timedelta(days=slice_days - 1)`
expressed in days, non-negative exactly when `slice_days >= 1`. -/
def splitGo (end_ : Int) (step : Nat) (cursor : Int) : List (Int × Int) :=
  if h : cursor ≤ end_ then
    let slice_end := min (cursor + step) end_
    (cursor, slice_end) :: splitGo end_ step (slice_end + 1)
  else []
termination_by (end_ + 1 - cursor).toNat
decreasing_by
  simp only [Int.min_def]
  split <;> omega

/-- Embedding of `_split_into_slices` (main.py lines 441-450).  For `slice_days ≤ 0`
the source loop never advances its cursor and diverges; every call site
clamps `slice_days` to at least 1 beforehand (main.py line 361), so the
model returns `[]` in that unreachable case. -/
def _split_into_slices (start end_ : Int) (slice_days : Int) : List (Int × Int) :=
  if 1 ≤ slice_days then splitGo end_ (slice_days - 1).toNat start else []

/-- Embedding of `_parse_cli_date` (main.py lines 468-477), parameterised by a model
`fromisoformat` of `datetime.fromisoformat` returning the UTC day number
(`none` models its `ValueError`, which the source converts into
`SystemExit`).  The guard `if not value` is true both for `None` and for
the empty string; timezone normalisation is the identity here. -/
def _parse_cli_date (fromisoformat : String → Option Int) (value : Option String) :
    Except PyErr (Option Int) :=
  match value with
  | none => .ok none
  | some v =>
    if v = "" then .ok none
    else
      match fromisoformat v with
      | none => .error (.systemExit ("Invalid date format " ++ v))
      | some d => .ok (some d)

/-- Per-chunk body of the `for chunk in raw.split(",")` loop of
`_parse_window_slices` (main.py lines 406-419): `.ok none` for a blank
chunk (skipped by `continue`), `.ok (some (s, e))` for a validated slice,
`.error` for each malformed shape — no colon, a date the ISO parser
rejects, a blank date part, or start after end.  `chunk.split(":", 1)` is
modelled by splitting on every colon and re-joining the tail. -/
def parseSliceChunk (fromisoformat : String → Option Int) (chunk : String) :
    Except PyErr (Option (Int × Int)) :=
  let c := chunk.trim
  if c = "" then .ok none
  else if !(c.contains (Char.ofNat 58)) then
    .error (.systemExit ("Invalid window slice " ++ c))
  else
    match c.splitOn ":" with
    | [] => .error (.systemExit c)
    | start_str :: restParts =>
      let end_str := String.intercalate ":" restParts
      match _parse_cli_date fromisoformat (some start_str.trim) with
      | .error e => .error e
      | .ok start_dt =>
        match _parse_cli_date fromisoformat (some end_str.trim) with
        | .error e => .error e
        | .ok end_dt =>
          match start_dt, end_dt with
          | some s, some e =>
            if s > e then .error (.systemExit ("Window slice start after end"))
            else .ok (some (s, e))
          | _, _ => .error (.systemExit ("Unable to parse window slice " ++ c))

/-- The chunk loop of `_parse_window_slices`: the first malformed chunk
aborts (the source raises `SystemExit` there), blank chunks are skipped,
validated slices are collected in order. -/
def parseSliceChunks (fromisoformat : String → Option Int) :
    List String → Except PyErr (List (Int × Int))
  | [] => .ok []
  | chunk :: rest =>
    match parseSliceChunk fromisoformat chunk with
    | .error e => .error e
    | .ok none => parseSliceChunks fromisoformat rest
    | .ok (some p) =>
      match parseSliceChunks fromisoformat rest with
      | .error e => .error e
      | .ok tail => .ok (p :: tail)

/-- Embedding of `_parse_window_slices` (main.py lines 402-420). -/
def _parse_window_slices (fromisoformat : String → Option Int) (raw : Option String) :
    Except PyErr (List (Int × Int)) :=
  match raw with
  | none => .ok []
  | some r =>
    if r = "" then .ok []
    else parseSliceChunks fromisoformat (r.splitOn ",")

/-- Model of Python values produced by `json.loads`. -/
inductive Json
  | null
  | bool (b : Bool)
  | num (n : Int)
  | str (s : String)
  | arr (elems : List Json)
  | obj (fields : List (String × Json))

/-- Python truthiness of a JSON value (`None`, `False`, `0`, empty string,
empty list and empty dict are falsy). -/
def Json.truthy : Json → Bool
  | .null => false
  | .bool b => b
  | .num n => n != 0
  | .str s => s != ""
  | .arr l => !l.isEmpty
  | .obj f => !f.isEmpty

/-- Python subscription `x[i]` with an integer index for the shapes
reachable in `_parse_response` and `_record_from_raw`: lists index with
negative indices counting from the end (out of range raises IndexError),
strings index to a one-character string, dicts with an integer key raise
KeyError (the modelled payloads hold no integer keys), every other value
raises TypeError. -/
def Json.subscript : Json → Int → Except PyErr Json
  | .arr l, i =>
    let j := if i < 0 then i + l.length else i
    if h : 0 ≤ j ∧ j.toNat < l.length then .ok (l.get ⟨j.toNat, h.2⟩)
    else .error .indexError
  | .str s, i =>
    let j := if i < 0 then i + s.data.length else i
    if h : 0 ≤ j ∧ j.toNat < s.data.length then
      .ok (.str (String.mk [s.data.get ⟨j.toNat, h.2⟩]))
    else .error .indexError
  | .obj _, _ => .error .keyError
  | _, _ => .error .typeError

/-- Python `len(x)` (TypeError on values without a length). -/
def Json.pyLen : Json → Except PyErr Nat
  | .arr l => .ok l.length
  | .str s => .ok s.data.length
  | .obj f => .ok f.length
  | _ => .error .typeError

/-- Python iteration over a JSON value: list elements, string characters
as one-character strings, dict keys; everything else raises TypeError. -/
def Json.pyIter : Json → Except PyErr (List Json)
  | .arr l => .ok l
  | .str s => .ok (s.data.map fun ch => .str (String.mk [ch]))
  | .obj f => .ok (f.map fun p => Json.str p.1)
  | _ => .error .typeError

/-- Python `json.loads(x)` applied to an arbitrary value: raises TypeError
unless the argument is a string, otherwise defers to the `loads` oracle
(`none` models `json.JSONDecodeError`, a subclass of `ValueError`). -/
def pyLoads (loads : String → Option Json) : Json → Except PyErr Json
  | .str s =>
    match loads s with
    | none => .error .valueError
    | some j => .ok j
  | _ => .error .typeError

/-- The literal prefix that `RESPONSE_PATTERN` (scraper.py line 259)
anchors on: a close paren, close bracket, close brace, a single quote and
two newlines (characters 41, 93, 125, 39, 10, 10). -/
def envelopeNeedle : List Char :=
  [Char.ofNat 41, Char.ofNat 93, Char.ofNat 125, Char.ofNat 39,
   Char.ofNat 10, Char.ofNat 10]

/-- Model of `RESPONSE_PATTERN.search` with the DOTALL pattern of
scraper.py line 259: scan left to right for the needle followed by at
least one character, capturing everything after the needle (DOTALL `.+` is
greedy to the end of the payload). -/
def findEnvelope : List Char → Option (List Char)
  | [] => none
  | c :: cs =>
    if envelopeNeedle.isPrefixOf (c :: cs) && !((c :: cs).drop 6).isEmpty then
      some ((c :: cs).drop 6)
    else findEnvelope cs

/-- Embedding of `_parse_response` (scraper.py lines 399-422).  Returns
the `reviews` value and the raw token value (`none` when the token lookup
fell into its `except (IndexError, TypeError)` handler).  The raising
paths are exactly the uncaught exceptions of the source: `json.loads` on
the captured envelope group (line 405) and the shape accesses
`outer[0]`, `len(outer[0])` (line 406) and `inner[0]` (line 415) sit
outside every `try` block, and the dict subscriptions raising KeyError
are not in the caught exception tuples. -/
def _parse_response (loads : String → Option Json) (payload : String) :
    Except PyErr (Json × Option Json) :=
  match findEnvelope payload.data with
  | none => .ok (.arr [], none)
  | some group1 =>
    match pyLoads loads (.str (String.mk group1)) with
    | .error e => .error e
    | .ok outer =>
      if !outer.truthy then .ok (.arr [], none)
      else
        match outer.subscript 0 with
        | .error e => .error e
        | .ok o0 =>
          match o0.pyLen with
          | .error e => .error e
          | .ok n =>
            if n < 3 then .ok (.arr [], none)
            else
              match (do
                  let f ← o0.subscript 2
                  pyLoads loads f : Except PyErr Json) with
              | .error .valueError => .ok (.arr [], none)
              | .error .typeError => .ok (.arr [], none)
              | .error e => .error e
              | .ok inner =>
                match (if inner.truthy then inner.subscript 0
                       else .ok (.arr [])) with
                | .error e => .error e
                | .ok reviews =>
                  match (do
                      let a ← inner.subscript (-1)
                      a.subscript (-1) : Except PyErr Json) with
                  | .ok v => .ok (reviews, some v)
                  | .error .indexError => .ok (reviews, none)
                  | .error .typeError => .ok (reviews, none)
                  | .error e => .error e

/-- Python `int(x)` for the shapes occurring in review payloads: numbers
pass through, booleans become 0 or 1, numeric strings parse, other strings
raise ValueError (collapsed to `none`, as are the TypeError shapes — both
are caught by the handler of `_record_from_raw`). -/
def pyToInt : Json → Option Int
  | .num n => some n
  | .bool b => some (if b then 1 else 0)
  | .str s => s.trim.toInt?
  | _ => none

/-- Embedding of `_record_from_raw` (scraper.py lines 424-449).  Its
`except (IndexError, TypeError, ValueError)` handler is modelled by
`none`.  Fields are modelled for the shapes the endpoint emits (`raw[0]` a
string id, `raw[1][0]` a string-or-null user name, `raw[2]` a numeric
rating, `raw[4]` a string-or-null text, `raw[5][0]` a numeric epoch
timestamp); exotic field shapes on which the source would instead raise an
uncaught exception (for example a numeric user name raising
AttributeError at `.strip()`) are also collapsed to `none` — no claim
verified here evaluates such an input. -/
def _record_from_raw (raw : Json) : Option ReviewRecord := do
  let ridJ ← (raw.subscript 0).toOption
  let r1 ← (raw.subscript 1).toOption
  let nameJ ← (r1.subscript 0).toOption
  let user_name ←
    match nameJ with
    | .str s => some s.trim
    | .null => some ""
    | .bool false => some ""
    | .num 0 => some ""
    | _ => none
  let ratingJ ← (raw.subscript 2).toOption
  let rating ← pyToInt ratingJ
  let textJ ← (raw.subscript 4).toOption
  let text ←
    match textJ with
    | .str s => some s
    | .null => some ""
    | .bool false => some ""
    | .num 0 => some ""
    | _ => none
  let tsInfo ← (raw.subscript 5).toOption
  let tsJ ← (tsInfo.subscript 0).toOption
  let ts ← match tsJ with | .num n => some n | _ => none
  let rid ← match ridJ with | .str s => some s | _ => none
  if rid = "" ∨ ts = 0 then none
  else
    let title := if user_name ≠ "" then user_name else text.take 80
    some { review_id := rid
           title := if title ≠ "" then title else "Play Store Review"
           text := text
           rating := rating
           date := ts
           author := if user_name ≠ "" then some user_name else none
           product_tag := none }

/-- Outcome of the guarded `session.post` plus `raise_for_status` call
(scraper.py lines 376-386): `failure` covers every
`requests.RequestException` (connection error, timeout, non-2xx status),
`success` carries the response text. -/
inductive Transport
  | failure
  | success (body : String)

/-- Embedding of `_fetch_page` (scraper.py lines 369-397).  A transport
failure returns the empty page; otherwise the response text is parsed
(which may raise, see `_parse_response`), each raw review is decoded
defensively, and a non-empty string token is kept. -/
def _fetch_page (loads : String → Option Json) (t : Transport) :
    Except PyErr (List ReviewRecord × Option String) :=
  match t with
  | .failure => .ok ([], none)
  | .success body =>
    match _parse_response loads body with
    | .error e => .error e
    | .ok (reviews_raw, token) =>
      match reviews_raw.pyIter with
      | .error e => .error e
      | .ok items =>
        let records := (items.map _record_from_raw).reduceOption
        let next_token : Option String :=
          match token with
          | some (.str s) => if s = "" then none else some s
          | _ => none
        .ok (records, next_token)

/-- Embedding of `_targets_met` (scraper.py lines 451-455): trivially true
when the target is disabled, otherwise every bucket count must have
reached the target. -/
def _targets_met (target : Int) (c : RatingCounts) : Bool :=
  if target ≤ 0 then true
  else c.values.all fun n => decide (target ≤ (n : Int))

/-- Mutable state of the fetch loop in `PlayStoreReviewFetcher.fetch`
(scraper.py lines 287-290): `collected`, `seen_ids` and `rating_counts`.
The `seen_ids` set is modelled as the insertion-ordered list of ids. -/
structure LoopState where
  collected : List ReviewRecord
  seen_ids : List String
  rating_counts : RatingCounts
  deriving Repr, DecidableEq

/-- Body of `for record in page_records` (scraper.py lines 303-311):
skip already-seen ids, skip records after the window end, then record the
id, append the record and count in-range ratings (unclamped here). -/
def processRecord (window_end : Int) (st : LoopState) (r : ReviewRecord) : LoopState :=
  if st.seen_ids.contains r.review_id then st
  else if window_end < r.date then st
  else
    { collected := st.collected ++ [r]
      seen_ids := st.seen_ids ++ [r.review_id]
      rating_counts :=
        if 1 ≤ r.rating ∧ r.rating ≤ 5 then st.rating_counts.incr r.rating
        else st.rating_counts }

/-- One page response as consumed by the fetch loop: the decoded records
and the continuation token, i.e. the value returned by `_fetch_page`. -/
structure Page where
  records : List ReviewRecord
  token : Option String
  deriving Repr, DecidableEq

/-- Ingestion of one full page by the loop body. -/
def ingestPage (window_end : Int) (st : LoopState) (pg : Page) : LoopState :=
  pg.records.foldl (processRecord window_end) st

/-- Reason the fetch loop stopped.  `exhausted` is the model artefact for
running off the end of the supplied response list. -/
inductive StopReason
  | maxReached
  | emptyPage
  | targetsMet
  | noToken
  | exhausted
  deriving Repr, DecidableEq

/-- The `while len(collected) < max_reviews` loop of
`PlayStoreReviewFetcher.fetch` (scraper.py lines 292-318), driven by the
finite list of page responses the endpoint will serve: entry i models the
value of the i-th `_fetch_page` call (the continuation token sent with
request i+1 is the one carried by entry i, so the request side needs no
separate model).  Returns the final state, the stop reason and the number
of pages fetched. -/
def fetchLoop (max_reviews target window_end : Int) :
    List Page → LoopState → LoopState × StopReason × Nat
  | [], st =>
    if (st.collected.length : Int) < max_reviews then (st, .exhausted, 0)
    else (st, .maxReached, 0)
  | pg :: rest, st =>
    if (st.collected.length : Int) < max_reviews then
      if pg.records.isEmpty then (st, .emptyPage, 1)
      else
        let st2 := ingestPage window_end st pg
        if _targets_met target st2.rating_counts then (st2, .targetsMet, 1)
        else if pg.token.isNone then (st2, .noToken, 1)
        else
          let r := fetchLoop max_reviews target window_end rest st2
          (r.1, r.2.1, r.2.2 + 1)
    else (st, .maxReached, 0)

/-- State reached after ingesting the first `k` page responses while
ignoring every stop condition (used to name the state each loop iteration
saw). -/
def stateAfter (window_end : Int) (pages : List Page) (st : LoopState) (k : Nat) :
    LoopState :=
  (pages.take k).foldl (ingestPage window_end) st

/-- Modelled from the spec words of claim C4: after a page, the axis loop
must stop iff that page returned zero records, or returned no continuation
token, or the accumulated records reached `max_reviews`, or every rating
bucket reached the per-rating target.  `st` is the loop state after
ingesting that page. -/
def specStopAfter (max_reviews target : Int) (pg : Page) (st : LoopState) : Bool :=
  pg.records.isEmpty || pg.token.isNone ||
    decide (max_reviews ≤ (st.collected.length : Int)) ||
    _targets_met target st.rating_counts

/-- Assignment `combined[record.review_id] = record` on the Python dict of
`_fetch_multi_window` (main.py line 463): dicts preserve insertion order
and an overwrite keeps the original position of the key. -/
def dictInsert (m : List (String × ReviewRecord)) (r : ReviewRecord) :
    List (String × ReviewRecord) :=
  if m.any fun p => decide (p.1 = r.review_id) then
    m.map fun p => if p.1 = r.review_id then (p.1, r) else p
  else m ++ [(r.review_id, r)]

/-- Embedding of `_fetch_multi_window` (main.py lines 453-465): each
element of `segments` models the list returned by `scraper.fetch_reviews`
for one slice (in slice order); the combined dict values are returned in
insertion order — the source performs no final sort here. -/
def _fetch_multi_window (segments : List (List ReviewRecord)) : List ReviewRecord :=
  (segments.foldl (fun m seg => seg.foldl dictInsert m) []).map Prod.snd

/-- The merge loop of `fetch_reviews` over one sort-mode pass
(scraper.py lines 138-145): records with new ids are appended to the
`combined_records` dict until it holds `max_reviews` entries, at which
point collection for the pass stops (`break`). -/
def mergePass (max_reviews : Int) (m : List (String × ReviewRecord)) :
    List ReviewRecord → List (String × ReviewRecord)
  | [] => m
  | r :: rs =>
    if m.any fun p => decide (p.1 = r.review_id) then mergePass max_reviews m rs
    else
      let m2 := m ++ [(r.review_id, r)]
      if max_reviews ≤ (m2.length : Int) then m2
      else mergePass max_reviews m2 rs

/-- Comparator of `sorted(..., key=lambda r: r.date, reverse=True)`:
a stable sort placing larger timestamps first. -/
def dateDescLe (a b : ReviewRecord) : Bool :=
  decide (b.date ≤ a.date)

/-- Python `sorted(records, key=lambda r: r.date, reverse=True)`. -/
def sortByDateDesc (l : List ReviewRecord) : List ReviewRecord :=
  l.mergeSort dateDescLe

/-- Embedding of `_filter_by_window` (scraper.py lines 457-463). -/
def _filter_by_window (collected : List ReviewRecord)
    (window_start window_end : Int) : List ReviewRecord :=
  collected.filter fun r => decide (window_start ≤ r.date ∧ r.date ≤ window_end)

/-- Rating clamp `min(max(record.rating, 1), 5)` used for bucketing
(scraper.py lines 472 and 492). -/
def clampRating (r : Int) : Int :=
  min (max r 1) 5

/-- Embedding of `_count_by_rating` (scraper.py lines 488-494). -/
def _count_by_rating (records : List ReviewRecord) : RatingCounts :=
  records.foldl (fun c r => c.incr (clampRating r.rating)) (RatingCounts.const 0)

/-- Greedy selection walk of `_limit_per_rating` (scraper.py lines
470-477) over the timestamp-descending record list: `quota` is
`per_rating_remaining`; a record is admitted while its clamped bucket
still has quota, and the walk breaks once every bucket quota is zero. -/
def limitGo (quota : RatingCounts) : List ReviewRecord → List ReviewRecord
  | [] => []
  | r :: rs =>
    let b := clampRating r.rating
    if 0 < quota.get b then
      let q2 := quota.set b (quota.get b - 1)
      if q2.values.all fun v => decide (v = 0) then [r]
      else r :: limitGo q2 rs
    else
      if quota.values.all fun v => decide (v = 0) then []
      else limitGo quota rs

/-- Embedding of `_limit_per_rating` (scraper.py lines 465-486). -/
def _limit_per_rating (per_rating_target : Int) (records : List ReviewRecord) :
    List ReviewRecord :=
  if per_rating_target ≤ 0 then sortByDateDesc records
  else limitGo (RatingCounts.const per_rating_target.toNat) (sortByDateDesc records)

/-- Final post-processing of `fetch_reviews` (scraper.py lines 163-168):
filter the merged map values to the window, apply the rating-balanced
selector and return the result sorted by timestamp descending. -/
def fetch_reviews_result (per_rating_target window_start window_end : Int)
    (combined_values : List ReviewRecord) : List ReviewRecord :=
  sortByDateDesc (_limit_per_rating per_rating_target
    (_filter_by_window combined_values window_start window_end))

/-- Python `datetime.weekday` (Monday is 0) of a UTC day number:
1970-01-01, day 0, was a Thursday. -/
def pyWeekday (day : Int) : Int :=
  (day + 3) % 7

/-- UTC calendar day of a record timestamp, i.e. the day number of
`datetime(self.date.year, self.date.month, self.date.day, tzinfo=utc)`
(scraper.py line 90). -/
def ReviewRecord.dateDay (r : ReviewRecord) : Int :=
  r.date.fdiv 86400

/-- Embedding of `ReviewRecord.week_bucket` (scraper.py lines 88-93),
with both boundaries as UTC day numbers. -/
def ReviewRecord.week_bucket (r : ReviewRecord) : Int × Int :=
  let week_start := r.dateDay - pyWeekday r.dateDay
  (week_start, week_start + 6)

/-- Coherence property of the id-keyed dicts: every stored record carries
the id it is keyed under (both merge loops only ever store a record under
its own `review_id`). -/
def WellKeyed (m : List (String × ReviewRecord)) : Prop :=
  ∀ p ∈ m, p.2.review_id = p.1

/-- Transitivity of the descending-timestamp comparator. -/
theorem dateDescLe_trans (a b c : ReviewRecord) (hab : dateDescLe a b = true)
    (hbc : dateDescLe b c = true) : dateDescLe a c = true := by
  simp only [dateDescLe, decide_eq_true_eq] at hab hbc ⊢
  omega

/-- Totality of the descending-timestamp comparator. -/
theorem dateDescLe_total (a b : ReviewRecord) :
    (dateDescLe a b || dateDescLe b a) = true := by
  simp only [dateDescLe, Bool.or_eq_true, decide_eq_true_eq]
  omega

/-- A list sorted by `sortByDateDesc` is pairwise descending in `date`. -/
theorem sortByDateDesc_sorted (l : List ReviewRecord) :
    List.Pairwise (fun a b => b.date ≤ a.date) (sortByDateDesc l) := by
  have h := List.sorted_mergeSort dateDescLe_trans dateDescLe_total l
  exact h.imp (by intro a b hab; simpa [dateDescLe] using hab)

/-- Sorting by descending timestamp permutes the input. -/
theorem sortByDateDesc_perm (l : List ReviewRecord) :
    (sortByDateDesc l).Perm l :=
  List.mergeSort_perm l dateDescLe

/-- C9: `week_bucket` returns a Monday-aligned pair of UTC day numbers:
`week_start` is a Monday (Python weekday 0) at or before the record
timestamp's UTC calendar day, `week_end = week_start + 6`, and the
record's calendar day lies within `[week_start, week_end]`. -/
theorem week_bucket_monday_aligned (r : ReviewRecord) :
    pyWeekday r.week_bucket.1 = 0 ∧
    r.week_bucket.2 = r.week_bucket.1 + 6 ∧
    r.week_bucket.1 ≤ r.dateDay ∧ r.dateDay ≤ r.week_bucket.2 := by
  have h1 : r.week_bucket.1 = r.dateDay - (r.dateDay + 3) % 7 := rfl
  have h2 : r.week_bucket.2 = r.dateDay - (r.dateDay + 3) % 7 + 6 := rfl
  have key : (r.dateDay + 3 - (r.dateDay + 3) % 7) % 7 = 0 := by
    rw [Int.sub_emod, Int.emod_emod_of_dvd _ (dvd_refl 7), sub_self, Int.zero_emod]
  refine ⟨?_, by rw [h1, h2], ?_, ?_⟩
  · rw [h1]; simp only [pyWeekday]
    have e : r.dateDay - (r.dateDay + 3) % 7 + 3 = r.dateDay + 3 - (r.dateDay + 3) % 7 := by
      ring
    rw [e, key]
  · rw [h1]; omega
  · rw [h2]; omega

/-- C3: without overrides `date_window` succeeds with
`end = reference - min_offset_days` and `start = end - lookback_days`,
hence `start < end` whenever the lookback is positive, and
`end ≤ reference - min_offset_days`. -/
theorem date_window_no_overrides (cfg : ScraperConfig) (reference : Int)
    (hlb : 0 < cfg.lookback_days) :
    ∃ s e, cfg.date_window reference none none = .ok (s, e) ∧
      e = reference - cfg.min_offset_days ∧
      s = e - cfg.lookback_days ∧
      s < e ∧ e ≤ reference - cfg.min_offset_days := by
  refine ⟨reference - cfg.min_offset_days - cfg.lookback_days,
    reference - cfg.min_offset_days, rfl, rfl, rfl, by omega, le_refl _⟩

/-- Witness for C3 at the default configuration and reference day 100. -/
theorem date_window_no_overrides_witness :
    0 < ({} : ScraperConfig).lookback_days ∧
    ∃ s e, ({} : ScraperConfig).date_window 100 none none = .ok (s, e) ∧
      e = 100 - ({} : ScraperConfig).min_offset_days ∧
      s = e - ({} : ScraperConfig).lookback_days ∧
      s < e ∧ e ≤ 100 - ({} : ScraperConfig).min_offset_days :=
  ⟨by decide, date_window_no_overrides {} 100 (by decide)⟩

/-- C10: a lone override is ignored entirely: with exactly one of the
start/end overrides supplied, `date_window` raises nothing and returns
the lookback window computed from the reference, exactly as if no
override had been given. -/
theorem date_window_single_override_ignored (cfg : ScraperConfig)
    (reference s e : Int) :
    cfg.date_window reference (some s) none = cfg.date_window reference none none ∧
    cfg.date_window reference none (some e) = cfg.date_window reference none none ∧
    cfg.date_window reference none none =
      .ok (reference - cfg.min_offset_days - cfg.lookback_days,
           reference - cfg.min_offset_days) :=
  ⟨rfl, rfl, rfl⟩

/-- The overwrite guard of `dictInsert` fires exactly when the id is
already a key of the dict. -/
theorem dictInsert_any_iff (m : List (String × ReviewRecord)) (r : ReviewRecord) :
    (m.any fun p => decide (p.1 = r.review_id)) = true ↔
      r.review_id ∈ m.map Prod.fst := by
  simp [List.any_eq_true, List.mem_map]

/-- Key list of the dict after one insertion: unchanged on overwrite,
extended by the new id otherwise. -/
theorem dictInsert_keys (m : List (String × ReviewRecord)) (r : ReviewRecord) :
    (dictInsert m r).map Prod.fst =
      if r.review_id ∈ m.map Prod.fst then m.map Prod.fst
      else m.map Prod.fst ++ [r.review_id] := by
  unfold dictInsert
  by_cases h : r.review_id ∈ m.map Prod.fst
  · rw [if_pos ((dictInsert_any_iff m r).mpr h), if_pos h, List.map_map]
    refine List.map_congr_left ?_
    intro p hp
    simp only [Function.comp]
    split <;> rfl
  · rw [if_neg (fun hc => h ((dictInsert_any_iff m r).mp hc)), if_neg h, List.map_append]
    rfl

/-- Dict insertion preserves distinctness of the keys. -/
theorem dictInsert_keys_nodup (m : List (String × ReviewRecord)) (r : ReviewRecord)
    (h : (m.map Prod.fst).Nodup) : ((dictInsert m r).map Prod.fst).Nodup := by
  rw [dictInsert_keys]
  split_ifs with hm
  · exact h
  · simp [List.nodup_append, h, hm]

/-- Key membership after one dict insertion. -/
theorem mem_dictInsert_keys (m : List (String × ReviewRecord)) (r : ReviewRecord)
    (k : String) :
    k ∈ (dictInsert m r).map Prod.fst ↔ k ∈ m.map Prod.fst ∨ k = r.review_id := by
  rw [dictInsert_keys]
  split_ifs with hm
  · constructor
    · exact Or.inl
    · rintro (h | h)
      · exact h
      · subst h; exact hm
  · simp

/-- Dict insertion keeps every stored record keyed under its own id. -/
theorem dictInsert_wellKeyed (m : List (String × ReviewRecord)) (r : ReviewRecord)
    (h : WellKeyed m) : WellKeyed (dictInsert m r) := by
  unfold dictInsert
  split_ifs with hm
  · intro p hp
    obtain ⟨q, hq, he⟩ := List.mem_map.mp hp
    by_cases hqr : q.1 = r.review_id
    · rw [if_pos hqr] at he
      subst he
      exact hqr.symm
    · rw [if_neg hqr] at he
      subst he
      exact h q hq
  · intro p hp
    rcases List.mem_append.mp hp with hp | hp
    · exact h p hp
    · simp at hp
      subst hp
      rfl

/-- For a well-keyed dict the ids of the stored values are the keys. -/
theorem values_ids_eq_keys (m : List (String × ReviewRecord)) (h : WellKeyed m) :
    (m.map Prod.snd).map (fun v => v.review_id) = m.map Prod.fst := by
  rw [List.map_map]
  exact List.map_congr_left fun p hp => h p hp

/-- Folding one slice segment into the dict preserves key distinctness. -/
theorem foldl_dictInsert_nodup (seg : List ReviewRecord) :
    ∀ m : List (String × ReviewRecord),
      (m.map Prod.fst).Nodup → ((seg.foldl dictInsert m).map Prod.fst).Nodup := by
  induction seg with
  | nil => exact fun m h => h
  | cons r rs ih => exact fun m h => ih _ (dictInsert_keys_nodup m r h)

/-- Folding one slice segment into the dict preserves well-keyedness. -/
theorem foldl_dictInsert_wellKeyed (seg : List ReviewRecord) :
    ∀ m : List (String × ReviewRecord),
      WellKeyed m → WellKeyed (seg.foldl dictInsert m) := by
  induction seg with
  | nil => exact fun m h => h
  | cons r rs ih => exact fun m h => ih _ (dictInsert_wellKeyed m r h)

/-- Key membership after folding in one slice segment. -/
theorem mem_foldl_dictInsert (seg : List ReviewRecord) (k : String) :
    ∀ m : List (String × ReviewRecord),
      k ∈ (seg.foldl dictInsert m).map Prod.fst ↔
        k ∈ m.map Prod.fst ∨ k ∈ seg.map (fun r => r.review_id) := by
  induction seg with
  | nil => simp
  | cons r rs ih =>
    intro m
    simp only [List.foldl_cons, List.map_cons, List.mem_cons]
    rw [ih (dictInsert m r), mem_dictInsert_keys]
    tauto

/-- Folding all slice segments into the dict preserves key
distinctness. -/
theorem segs_foldl_nodup (segments : List (List ReviewRecord)) :
    ∀ m : List (String × ReviewRecord), (m.map Prod.fst).Nodup →
      ((segments.foldl (fun m seg => seg.foldl dictInsert m) m).map Prod.fst).Nodup := by
  induction segments with
  | nil => exact fun m h => h
  | cons s ss ih => exact fun m h => ih _ (foldl_dictInsert_nodup s m h)

/-- Folding all slice segments into the dict preserves well-keyedness. -/
theorem segs_foldl_wellKeyed (segments : List (List ReviewRecord)) :
    ∀ m : List (String × ReviewRecord), WellKeyed m →
      WellKeyed (segments.foldl (fun m seg => seg.foldl dictInsert m) m) := by
  induction segments with
  | nil => exact fun m h => h
  | cons s ss ih => exact fun m h => ih _ (foldl_dictInsert_wellKeyed s m h)

/-- Key membership after folding in all slice segments. -/
theorem mem_segs_foldl (segments : List (List ReviewRecord)) (k : String) :
    ∀ m : List (String × ReviewRecord),
      k ∈ ((segments.foldl (fun m seg => seg.foldl dictInsert m) m).map Prod.fst) ↔
        k ∈ m.map Prod.fst ∨ ∃ seg ∈ segments, k ∈ seg.map (fun r => r.review_id) := by
  induction segments with
  | nil => simp
  | cons s ss ih =>
    intro m
    simp only [List.foldl_cons]
    rw [ih, mem_foldl_dictInsert]
    constructor
    · rintro ((h | h) | ⟨seg, hs, hk⟩)
      · exact Or.inl h
      · exact Or.inr ⟨s, List.mem_cons_self s ss, h⟩
      · exact Or.inr ⟨seg, List.mem_cons_of_mem s hs, hk⟩
    · rintro (h | ⟨seg, hs, hk⟩)
      · exact Or.inl (Or.inl h)
      · rcases List.mem_cons.mp hs with he | hs
        · subst he; exact Or.inl (Or.inr hk)
        · exact Or.inr ⟨seg, hs, hk⟩

/-- The capped per-sort-mode merge of `fetch_reviews` preserves key
distinctness. -/
theorem mergePass_keys_nodup (maxR : Int) :
    ∀ (pass : List ReviewRecord) (m : List (String × ReviewRecord)),
      (m.map Prod.fst).Nodup → ((mergePass maxR m pass).map Prod.fst).Nodup
  | [], m => fun h => h
  | r :: rs, m => fun h => by
    have hkeys : ¬(m.any fun p => decide (p.1 = r.review_id)) = true →
        ((m ++ [(r.review_id, r)]).map Prod.fst).Nodup := by
      intro h1
      have hnm : r.review_id ∉ m.map Prod.fst :=
        fun hc => h1 ((dictInsert_any_iff m r).mpr hc)
      simp [List.nodup_append, h, hnm]
    simp only [mergePass]
    split_ifs with h1 h2
    · exact mergePass_keys_nodup maxR rs m h
    · exact hkeys h1
    · exact mergePass_keys_nodup maxR rs _ (hkeys h1)

/-- A malformed chunk anywhere in the slice list makes the whole chunk
loop raise. -/
theorem parseSliceChunks_error_of_bad (fromiso : String → Option Int)
    (chunks : List String) (c : String) (hc : c ∈ chunks)
    (hbad : ∃ err, parseSliceChunk fromiso c = .error err) :
    ∃ err, parseSliceChunks fromiso chunks = .error err := by
  induction chunks with
  | nil => cases hc
  | cons ch rest ih =>
    rcases List.mem_cons.mp hc with he | hm
    · subst he
      obtain ⟨err, herr⟩ := hbad
      exact ⟨err, by simp [parseSliceChunks, herr]⟩
    · cases hch : parseSliceChunk fromiso ch with
      | error e => exact ⟨e, by simp [parseSliceChunks, hch]⟩
      | ok o =>
        obtain ⟨err, herr⟩ := ih hm
        cases o with
        | none => exact ⟨err, by simp [parseSliceChunks, hch, herr]⟩
        | some p => exact ⟨err, by simp [parseSliceChunks, hch, herr]⟩

/-- A slice the per-chunk parser accepts has been validated
`start ≤ end`. -/
theorem parseSliceChunk_ok_le (fromiso : String → Option Int) (chunk : String)
    (p : Int × Int) (h : parseSliceChunk fromiso chunk = .ok (some p)) :
    p.1 ≤ p.2 := by
  simp only [parseSliceChunk] at h
  repeat' split at h
  all_goals try exact (Except.noConfusion h)
  all_goals simp at h
  all_goals cases h
  all_goals simp
  all_goals omega

/-- Every slice the chunk loop returns has been validated `start ≤ end`. -/
theorem parseSliceChunks_ok_le (fromiso : String → Option Int) :
    ∀ (chunks : List String) (slices : List (Int × Int)),
      parseSliceChunks fromiso chunks = .ok slices → ∀ p ∈ slices, p.1 ≤ p.2
  | [], slices => by
    intro h p hp
    simp only [parseSliceChunks] at h
    cases h
    cases hp
  | ch :: rest, slices => by
    intro h p hp
    unfold parseSliceChunks at h
    cases hch : parseSliceChunk fromiso ch with
    | error e => rw [hch] at h; cases h
    | ok o =>
      rw [hch] at h
      cases o with
      | none => exact parseSliceChunks_ok_le fromiso rest slices h p hp
      | some q =>
        cases hrest : parseSliceChunks fromiso rest with
        | error e => rw [hrest] at h; cases h
        | ok tail =>
          rw [hrest] at h
          cases h
          rcases List.mem_cons.mp hp with he | hm
          · subst he
            exact parseSliceChunk_ok_le fromiso ch p hch
          · exact parseSliceChunks_ok_le fromiso rest tail hrest p hm

/-- A non-blank chunk without a colon makes the per-chunk parse raise. -/
theorem parseSliceChunk_error_no_colon (fromiso : String → Option Int)
    (chunk : String) (h1 : ¬chunk.trim = "")
    (h2 : chunk.trim.contains (Char.ofNat 58) = false) :
    parseSliceChunk fromiso chunk =
      .error (.systemExit ("Invalid window slice " ++ chunk.trim)) := by
  simp only [parseSliceChunk]
  rw [if_neg h1, if_pos (by simp [h2])]

/-- A chunk whose start part the ISO date parser rejects makes the
per-chunk parse raise (either the date-format `SystemExit`, or — when the
start part is blank — the unable-to-parse `SystemExit`). -/
theorem parseSliceChunk_error_bad_date (fromiso : String → Option Int)
    (chunk s0 : String) (rest0 : List String)
    (h1 : ¬chunk.trim = "") (h2 : chunk.trim.contains (Char.ofNat 58) = true)
    (hsplit : chunk.trim.splitOn ":" = s0 :: rest0)
    (hbad : fromiso s0.trim = none) :
    ∃ err, parseSliceChunk fromiso chunk = .error err := by
  simp only [parseSliceChunk]
  rw [if_neg h1, if_neg (by simp [h2])]
  simp only [hsplit]
  by_cases hs0 : s0.trim = ""
  · have hstart : _parse_cli_date fromiso (some s0.trim) = .ok none := by
      simp [_parse_cli_date, hs0]
    rw [hstart]
    cases hend : _parse_cli_date fromiso (some (String.intercalate ":" rest0).trim) with
    | error e => exact ⟨e, rfl⟩
    | ok ed =>
      cases ed with
      | none => exact ⟨_, rfl⟩
      | some e2 => exact ⟨_, rfl⟩
  · have hstart : _parse_cli_date fromiso (some s0.trim) =
        .error (.systemExit ("Invalid date format " ++ s0.trim)) := by
      simp [_parse_cli_date, hs0, hbad]
    rw [hstart]
    exact ⟨_, rfl⟩

/-- A chunk whose two dates parse but are inverted makes the per-chunk
parse raise the start-after-end `SystemExit`. -/
theorem parseSliceChunk_error_start_after_end (fromiso : String → Option Int)
    (chunk s0 : String) (rest0 : List String) (s e : Int)
    (h1 : ¬chunk.trim = "") (h2 : chunk.trim.contains (Char.ofNat 58) = true)
    (hsplit : chunk.trim.splitOn ":" = s0 :: rest0)
    (hs0 : ¬s0.trim = "") (hs : fromiso s0.trim = some s)
    (he0 : ¬(String.intercalate ":" rest0).trim = "")
    (he : fromiso (String.intercalate ":" rest0).trim = some e)
    (hlt : e < s) :
    parseSliceChunk fromiso chunk =
      .error (.systemExit "Window slice start after end") := by
  simp only [parseSliceChunk]
  rw [if_neg h1, if_neg (by simp [h2])]
  simp only [hsplit]
  have hstart : _parse_cli_date fromiso (some s0.trim) = .ok (some s) := by
    simp [_parse_cli_date, hs0, hs]
  have hend : _parse_cli_date fromiso (some (String.intercalate ":" rest0).trim) =
      .ok (some e) := by
    simp [_parse_cli_date, he0, he]
  simp only [hstart, hend]
  rw [if_pos (by omega)]

/-- C8 amended: invalid input configuration is fatal and detected before
any fetch is attempted: `date_window` with both overrides supplied raises
exactly when `start > end`, and parsing an explicit comma-separated slice
list raises whenever any entry is malformed — a non-blank entry without a
colon, a date the ISO parser rejects, or an inverted range — and on
success returns only validated slices.  The final clause of the original
claim (that no other condition aborts a whole run) fails on the code: see
`non_config_abort_counterexample`. -/
theorem config_validation_fatal :
    (∀ (cfg : ScraperConfig) (reference s e : Int),
        (e < s → cfg.date_window reference (some s) (some e) = .error .valueError) ∧
        (s ≤ e → cfg.date_window reference (some s) (some e) = .ok (s, e))) ∧
    (∀ (fromiso : String → Option Int) (raw c : String),
        ¬raw = "" → c ∈ raw.splitOn "," →
        (∃ err, parseSliceChunk fromiso c = .error err) →
        ∃ err, _parse_window_slices fromiso (some raw) = .error err) ∧
    (∀ (fromiso : String → Option Int) (chunk : String),
        ¬chunk.trim = "" → chunk.trim.contains (Char.ofNat 58) = false →
        ∃ err, parseSliceChunk fromiso chunk = .error err) ∧
    (∀ (fromiso : String → Option Int) (chunk s0 : String) (rest0 : List String),
        ¬chunk.trim = "" → chunk.trim.contains (Char.ofNat 58) = true →
        chunk.trim.splitOn ":" = s0 :: rest0 → fromiso s0.trim = none →
        ∃ err, parseSliceChunk fromiso chunk = .error err) ∧
    (∀ (fromiso : String → Option Int) (chunk s0 : String) (rest0 : List String)
        (s e : Int),
        ¬chunk.trim = "" → chunk.trim.contains (Char.ofNat 58) = true →
        chunk.trim.splitOn ":" = s0 :: rest0 →
        ¬s0.trim = "" → fromiso s0.trim = some s →
        ¬(String.intercalate ":" rest0).trim = "" →
        fromiso (String.intercalate ":" rest0).trim = some e →
        e < s →
        parseSliceChunk fromiso chunk =
          .error (.systemExit "Window slice start after end")) ∧
    (∀ (fromiso : String → Option Int) (raw : Option String)
        (slices : List (Int × Int)),
        _parse_window_slices fromiso raw = .ok slices → ∀ p ∈ slices, p.1 ≤ p.2) := by
  refine ⟨?_, ?_, ?_, ?_, ?_, ?_⟩
  · intro cfg reference s e
    constructor
    · intro h
      simp only [ScraperConfig.date_window]
      rw [if_pos (by omega)]
    · intro h
      simp only [ScraperConfig.date_window]
      rw [if_neg (by omega)]
  · intro fromiso raw c hraw hc hbad
    simp only [_parse_window_slices]
    rw [if_neg hraw]
    exact parseSliceChunks_error_of_bad fromiso _ c hc hbad
  · intro fromiso chunk h1 h2
    exact ⟨_, parseSliceChunk_error_no_colon fromiso chunk h1 h2⟩
  · exact parseSliceChunk_error_bad_date
  · exact parseSliceChunk_error_start_after_end
  · intro fromiso raw slices h p hp
    cases raw with
    | none =>
      simp only [_parse_window_slices] at h
      cases h
      cases hp
    | some r =>
      by_cases hr : r = ""
      · subst hr
        simp only [_parse_window_slices, if_pos rfl] at h
        cases h
        cases hp
      · simp only [_parse_window_slices] at h
        rw [if_neg hr] at h
        exact parseSliceChunks_ok_le fromiso _ slices h p hp

/-- C8 fails in its final clause (that no condition other than invalid
input configuration aborts a whole run): with a perfectly valid
configuration, a page response whose envelope prefix matches but whose
payload decodes to the bare JSON number 42 makes `_fetch_page` raise
TypeError at the `outer[0]` access of scraper.py line 406, which no caller
in `fetch`, `fetch_reviews`, `_fetch_multi_window` or `run_pipeline`
catches — the run aborts.  The `loads` oracle is consulted only on the
string built from characters 52 and 50, i.e. the digits of 42, which real
`json.loads` parses as the number 42. -/
theorem non_config_abort_counterexample :
    _fetch_page (fun str => if str = String.mk [Char.ofNat 52, Char.ofNat 50]
        then some (.num 42) else none)
      (.success (String.mk (envelopeNeedle ++ [Char.ofNat 52, Char.ofNat 50]))) =
      .error .typeError := by
  rfl

/-- Witness for C8: the both-override validation error at a concrete
inverted window. -/
theorem config_validation_fatal_witness :
    (3 : Int) < 5 ∧
    ({} : ScraperConfig).date_window 100 (some 5) (some 3) = .error .valueError :=
  ⟨by decide, (config_validation_fatal.1 {} 100 5 3).1 (by decide)⟩

/-- C7 fails as stated: on a response whose envelope prefix matches but
whose captured payload is not valid JSON, `_parse_response` raises the
`json.loads` ValueError of scraper.py line 405 (it sits outside every
`try` block, and `_fetch_page` catches only `requests.RequestException`)
instead of returning an empty page.  The `loads` oracle is consulted only
on the one-character string `x` (character 120), which is not valid
JSON. -/
theorem parse_response_raises_counterexample :
    _parse_response (fun _ => none)
      (String.mk (envelopeNeedle ++ [Char.ofNat 120])) = .error .valueError := by
  rfl

/-- C7 amended: `_fetch_page` returns an empty page with no continuation
token on every transport failure (connection error, timeout, non-2xx) and
on every response body without the envelope prefix, and a failure of the
nested inner `json.loads` (scraper.py line 410, `ValueError` or
`TypeError`) also yields an empty page; but a response whose outer
envelope fails to decode after a matching prefix raises to the caller
instead — see `parse_response_raises_counterexample`. -/
theorem fetch_page_defensive_paths :
    (∀ loads : String → Option Json, _fetch_page loads .failure = .ok ([], none)) ∧
    (∀ (loads : String → Option Json) (payload : String),
        findEnvelope payload.data = none →
        _fetch_page loads (.success payload) = .ok ([], none)) ∧
    (∀ (loads : String → Option Json) (payload : String) (g : List Char)
        (outer o0 : Json) (n : Nat),
        findEnvelope payload.data = some g →
        loads (String.mk g) = some outer →
        outer.truthy = true →
        outer.subscript 0 = .ok o0 →
        o0.pyLen = .ok n →
        3 ≤ n →
        (do
          let f ← o0.subscript 2
          pyLoads loads f : Except PyErr Json) = .error .valueError →
        _fetch_page loads (.success payload) = .ok ([], none)) := by
  refine ⟨fun loads => rfl, ?_, ?_⟩
  · intro loads payload h
    simp [_fetch_page, _parse_response, h, Json.pyIter]
  · intro loads payload g outer o0 n hg hl ht hs hlen h3 hinner
    have hn : ¬n < 3 := by omega
    have hload : pyLoads loads (.str (String.mk g)) = .ok outer := by
      simp [pyLoads, hl]
    have hpr : _parse_response loads payload = .ok (.arr [], none) := by
      simp [_parse_response, hg, hload, hs, hlen, hinner, ht, hn]
    simp [_fetch_page, hpr, Json.pyIter]

/-- Witness for C7: a transport body without the envelope prefix yields
the empty page through the amended theorem. -/
theorem fetch_page_defensive_paths_witness :
    findEnvelope "hello".data = none ∧
    _fetch_page (fun _ => none) (.success "hello") = .ok ([], none) :=
  ⟨by rfl, fetch_page_defensive_paths.2.1 (fun _ => none) "hello" (by rfl)⟩

/-- C5: merging fetch passes is an idempotent union keyed by review id:
the multi-window combination holds pairwise distinct ids, an id appears in
it (exactly once) iff some slice segment contained it — independent of how
many passes contained the id — and the per-sort-mode merge loop of
`fetch_reviews` (including its `max_reviews` break) also never duplicates
an id, from any starting dict with distinct keys. -/
theorem merge_unique_by_id (segments : List (List ReviewRecord)) :
    ((_fetch_multi_window segments).map (fun r => r.review_id)).Nodup ∧
    (∀ rid : String,
        (rid ∈ (_fetch_multi_window segments).map (fun r => r.review_id) ↔
          ∃ seg ∈ segments, rid ∈ seg.map (fun r => r.review_id)) ∧
        ((∃ seg ∈ segments, rid ∈ seg.map (fun r => r.review_id)) →
          ((_fetch_multi_window segments).map (fun r => r.review_id)).count rid = 1)) ∧
    (∀ (maxR : Int) (m : List (String × ReviewRecord)) (pass : List ReviewRecord),
        (m.map Prod.fst).Nodup → ((mergePass maxR m pass).map Prod.fst).Nodup) := by
  have hwk : WellKeyed (segments.foldl (fun m seg => seg.foldl dictInsert m) []) :=
    segs_foldl_wellKeyed segments [] (by intro p hp; simp at hp)
  have hids : (_fetch_multi_window segments).map (fun r => r.review_id) =
      (segments.foldl (fun m seg => seg.foldl dictInsert m) []).map Prod.fst := by
    unfold _fetch_multi_window
    rw [List.map_map]
    exact List.map_congr_left fun p hp => hwk p hp
  have hnd : ((_fetch_multi_window segments).map (fun r => r.review_id)).Nodup := by
    rw [hids]
    exact segs_foldl_nodup segments [] (by simp)
  have hmem : ∀ rid : String,
      rid ∈ (_fetch_multi_window segments).map (fun r => r.review_id) ↔
        ∃ seg ∈ segments, rid ∈ seg.map (fun r => r.review_id) := by
    intro rid
    rw [hids, mem_segs_foldl]
    simp
  refine ⟨hnd, fun rid => ⟨hmem rid, fun hex => ?_⟩,
    fun maxR m pass h => mergePass_keys_nodup maxR pass m h⟩
  exact List.count_eq_one_of_mem hnd ((hmem rid).mpr hex)

/-- Witness for C5: the capped merge of a pass holding the same id twice
still yields distinct keys, starting from the empty dict. -/
theorem merge_unique_by_id_witness :
    (([] : List (String × ReviewRecord)).map Prod.fst).Nodup ∧
    ((mergePass 10 []
        [{ review_id := "a", title := "t", text := "x", rating := 5, date := 0,
           author := none, product_tag := none },
         { review_id := "a", title := "t", text := "x", rating := 5, date := 1,
           author := none, product_tag := none }]).map Prod.fst).Nodup :=
  ⟨by decide,
    (merge_unique_by_id []).2.2 10 []
      [{ review_id := "a", title := "t", text := "x", rating := 5, date := 0,
         author := none, product_tag := none },
       { review_id := "a", title := "t", text := "x", rating := 5, date := 1,
         author := none, product_tag := none }] (by decide)⟩

/-- C6 fails as stated: with two chronological slices (the older slice
first, as `_split_into_slices` produces them), `_fetch_multi_window`
returns the combined records in dict insertion order, so the older slice's
record precedes the newer one and the list is not sorted by timestamp
descending. -/
theorem multi_window_unsorted_counterexample :
    ¬ List.Pairwise (fun a b => b.date ≤ a.date)
      (_fetch_multi_window
        [[{ review_id := "a", title := "t", text := "x", rating := 5, date := 0,
            author := none, product_tag := none }],
         [{ review_id := "b", title := "t", text := "x", rating := 5, date := 86400,
            author := none, product_tag := none }]]) := by
  decide

/-- Every slice built by the split loop lies between the cursor and the
window end and spans at most `step + 1` days. -/
theorem splitGo_bounds (end_ : Int) (step : Nat) (cursor : Int) :
    ∀ p ∈ splitGo end_ step cursor,
      cursor ≤ p.1 ∧ p.1 ≤ p.2 ∧ p.2 ≤ end_ ∧ p.2 - p.1 ≤ (step : Int) := by
  induction cursor using splitGo.induct end_ step with
  | case1 c h se ih =>
    rw [splitGo, dif_pos h]
    intro p hp
    have hmin : c ≤ min (c + (step : Int)) end_ ∧ min (c + (step : Int)) end_ ≤ end_ ∧
        min (c + (step : Int)) end_ - c ≤ (step : Int) := by
      simp only [Int.min_def]; split <;> omega
    rcases List.mem_cons.mp hp with hp | hp
    · subst hp
      exact ⟨le_refl _, hmin.1, hmin.2.1, hmin.2.2⟩
    · have hb := ih p hp
      exact ⟨by omega, hb.2.1, hb.2.2.1, hb.2.2.2⟩
  | case2 c h =>
    rw [splitGo, dif_neg h]
    intro p hp
    exact absurd hp (List.not_mem_nil p)

/-- Adjacent slices built by the split loop are contiguous: each starts
one day after the previous one ends. -/
theorem splitGo_chain (end_ : Int) (step : Nat) (cursor : Int) :
    List.Chain' (fun p q => q.1 = p.2 + 1) (splitGo end_ step cursor) := by
  induction cursor using splitGo.induct end_ step with
  | case1 c h se ih =>
    rw [splitGo, dif_pos h]
    refine List.chain'_cons'.mpr ⟨?_, ih⟩
    intro q hq
    by_cases h2 : min (c + (step : Int)) end_ + 1 ≤ end_
    · rw [splitGo, dif_pos h2] at hq
      simp only [List.head?_cons, Option.mem_def, Option.some.injEq] at hq
      subst hq
      rfl
    · rw [splitGo, dif_neg h2] at hq
      simp at hq
  | case2 c h =>
    rw [splitGo, dif_neg h]
    exact List.chain'_nil

/-- Slices built by the split loop are pairwise non-overlapping (each ends
strictly before any later one starts). -/
theorem splitGo_pairwise (end_ : Int) (step : Nat) (cursor : Int) :
    List.Pairwise (fun p q => p.2 < q.1) (splitGo end_ step cursor) := by
  induction cursor using splitGo.induct end_ step with
  | case1 c h se ih =>
    rw [splitGo, dif_pos h]
    refine List.pairwise_cons.mpr ⟨?_, ih⟩
    intro q hq
    have hb := (splitGo_bounds end_ step _ q hq).1
    simp only []
    omega
  | case2 c h =>
    rw [splitGo, dif_neg h]
    exact List.Pairwise.nil

/-- The union of the slices built by the split loop is exactly the day
range from the cursor to the window end. -/
theorem splitGo_union (end_ : Int) (step : Nat) (cursor : Int) (x : Int) :
    (∃ p ∈ splitGo end_ step cursor, p.1 ≤ x ∧ x ≤ p.2) ↔
      (cursor ≤ x ∧ x ≤ end_) := by
  induction cursor using splitGo.induct end_ step with
  | case1 c h se ih =>
    rw [splitGo, dif_pos h]
    simp only [List.mem_cons]
    have hmin : c ≤ min (c + (step : Int)) end_ ∧ min (c + (step : Int)) end_ ≤ end_ := by
      simp only [Int.min_def]; split <;> omega
    constructor
    · rintro ⟨p, hp | hp, hx1, hx2⟩
      · subst hp
        exact ⟨hx1, le_trans hx2 hmin.2⟩
      · have hr := ih.mp ⟨p, hp, hx1, hx2⟩
        exact ⟨by omega, hr.2⟩
    · rintro ⟨hx1, hx2⟩
      by_cases hm : x ≤ min (c + (step : Int)) end_
      · exact ⟨(c, min (c + (step : Int)) end_), Or.inl rfl, hx1, hm⟩
      · obtain ⟨p, hp, h1, h2⟩ := ih.mpr ⟨by omega, hx2⟩
        exact ⟨p, Or.inr hp, h1, h2⟩
  | case2 c h =>
    rw [splitGo, dif_neg h]
    simp
    omega

/-- C2: for a window with `start ≤ end` and `sliceDays ≥ 1`,
`_split_into_slices` returns contiguous slices (each starts one day after
the previous one ends), pairwise non-overlapping, each spanning at most
`sliceDays` calendar days, whose union is exactly the window; in
particular the window 2024-01-01..2024-01-14 (UTC days 19723..19736) with
`sliceDays = 7` yields exactly the slices 2024-01-01..2024-01-07 and
2024-01-08..2024-01-14. -/
theorem split_into_slices_partition (start end_ slice_days : Int)
    (hse : start ≤ end_) (hsd : 1 ≤ slice_days) :
    List.Chain' (fun p q => q.1 = p.2 + 1) (_split_into_slices start end_ slice_days) ∧
    List.Pairwise (fun p q => p.2 < q.1) (_split_into_slices start end_ slice_days) ∧
    (∀ p ∈ _split_into_slices start end_ slice_days,
        p.1 ≤ p.2 ∧ p.2 - p.1 + 1 ≤ slice_days) ∧
    (∀ x : Int, (∃ p ∈ _split_into_slices start end_ slice_days,
        p.1 ≤ x ∧ x ≤ p.2) ↔ (start ≤ x ∧ x ≤ end_)) ∧
    _split_into_slices 19723 19736 7 = [(19723, 19729), (19730, 19736)] := by
  have hunf : _split_into_slices start end_ slice_days =
      splitGo end_ (slice_days - 1).toNat start := by
    unfold _split_into_slices
    rw [if_pos hsd]
  refine ⟨?_, ?_, ?_, ?_, ?_⟩
  · rw [hunf]; exact splitGo_chain _ _ _
  · rw [hunf]; exact splitGo_pairwise _ _ _
  · rw [hunf]
    intro p hp
    have hb := splitGo_bounds end_ (slice_days - 1).toNat start p hp
    have hcast : ((slice_days - 1).toNat : Int) = slice_days - 1 := by omega
    rw [hcast] at hb
    exact ⟨hb.2.1, by omega⟩
  · rw [hunf]
    intro x
    exact splitGo_union _ _ _ _
  · norm_num [_split_into_slices]
    rw [splitGo]
    norm_num [Int.min_def]
    rw [splitGo]
    norm_num [Int.min_def]
    rw [splitGo]
    norm_num

/-- Witness for C2: the concrete 14-day window split into weekly slices. -/
theorem split_into_slices_partition_witness :
    (19723 : Int) ≤ 19736 ∧ (1 : Int) ≤ 7 ∧
    _split_into_slices 19723 19736 7 = [(19723, 19729), (19730, 19736)] :=
  ⟨by decide, by decide,
    (split_into_slices_partition 19723 19736 7 (by decide) (by decide)).2.2.2.2⟩

/-- Reading back the bucket that was just written (bucket keys 1..5). -/
theorem RatingCounts.get_set_same (c : RatingCounts) (x : Int) (v : Nat)
    (hx1 : 1 ≤ x) (hx5 : x ≤ 5) : (c.set x v).get x = v := by
  have hx : x = 1 ∨ x = 2 ∨ x = 3 ∨ x = 4 ∨ x = 5 := by omega
  rcases hx with h | h | h | h | h <;> subst h <;>
    simp [RatingCounts.set, RatingCounts.get]

/-- Reading a bucket other than the one just written. -/
theorem RatingCounts.get_set_other (c : RatingCounts) (x y : Int) (v : Nat)
    (hxy : y ≠ x) : (c.set x v).get y = c.get y := by
  have hx : x = 1 ∨ x = 2 ∨ x = 3 ∨ x = 4 ∨ x = 5 ∨
      (¬x = 1 ∧ ¬x = 2 ∧ ¬x = 3 ∧ ¬x = 4 ∧ ¬x = 5) := by omega
  rcases hx with h | h | h | h | h | h
  · subst h
    have hs : c.set 1 v = { c with n1 := v } := by norm_num [RatingCounts.set]
    rw [hs]; unfold RatingCounts.get; split_ifs <;> first | rfl | omega
  · subst h
    have hs : c.set 2 v = { c with n2 := v } := by norm_num [RatingCounts.set]
    rw [hs]; unfold RatingCounts.get; split_ifs <;> first | rfl | omega
  · subst h
    have hs : c.set 3 v = { c with n3 := v } := by norm_num [RatingCounts.set]
    rw [hs]; unfold RatingCounts.get; split_ifs <;> first | rfl | omega
  · subst h
    have hs : c.set 4 v = { c with n4 := v } := by norm_num [RatingCounts.set]
    rw [hs]; unfold RatingCounts.get; split_ifs <;> first | rfl | omega
  · subst h
    have hs : c.set 5 v = { c with n5 := v } := by norm_num [RatingCounts.set]
    rw [hs]; unfold RatingCounts.get; split_ifs <;> first | rfl | omega
  · have hs : c.set x v = c := by
      simp [RatingCounts.set, h.1, h.2.1, h.2.2.1, h.2.2.2.1, h.2.2.2.2]
    rw [hs]

/-- The clamped rating is always a bucket key in 1..5. -/
theorem clampRating_mem (r : Int) : 1 ≤ clampRating r ∧ clampRating r ≤ 5 := by
  simp only [clampRating, Int.min_def, Int.max_def]
  split_ifs <;> omega

/-- Bucket-count invariant of the greedy selection walk of
`_limit_per_rating`: every clamped rating bucket receives at most its
remaining quota. -/
theorem limitGo_countP_le (b : Int) :
    ∀ (l : List ReviewRecord) (q : RatingCounts),
      (limitGo q l).countP (fun r => decide (clampRating r.rating = b)) ≤ q.get b
  | [], q => by simp [limitGo]
  | r :: rs, q => by
    have hcl := clampRating_mem r.rating
    by_cases hq : 0 < q.get (clampRating r.rating)
    · by_cases hz :
        ((q.set (clampRating r.rating) (q.get (clampRating r.rating) - 1)).values.all
          fun v => decide (v = 0)) = true
      · have hout : limitGo q (r :: rs) = [r] := by
          simp only [limitGo]
          rw [if_pos hq, if_pos hz]
        rw [hout]
        by_cases hb : clampRating r.rating = b
        · subst hb
          simp [List.countP_cons]
          omega
        · simp [List.countP_cons, hb]
      · have hout : limitGo q (r :: rs) =
            r :: limitGo (q.set (clampRating r.rating) (q.get (clampRating r.rating) - 1)) rs := by
          simp only [limitGo]
          rw [if_pos hq, if_neg (by simp [hz])]
        rw [hout]
        have ih := limitGo_countP_le b rs
          (q.set (clampRating r.rating) (q.get (clampRating r.rating) - 1))
        by_cases hb : clampRating r.rating = b
        · subst hb
          rw [RatingCounts.get_set_same q _ _ hcl.1 hcl.2] at ih
          simp [List.countP_cons]
          omega
        · rw [RatingCounts.get_set_other q _ b _ (fun h => hb h.symm)] at ih
          simp [List.countP_cons, hb]
          omega
    · by_cases hz : (q.values.all fun v => decide (v = 0)) = true
      · have hout : limitGo q (r :: rs) = [] := by
          simp only [limitGo]
          rw [if_neg hq, if_pos hz]
        simp [hout]
      · have hout : limitGo q (r :: rs) = limitGo q rs := by
          simp only [limitGo]
          rw [if_neg hq, if_neg (by simp [hz])]
        rw [hout]
        exact limitGo_countP_le b rs q

/-- C1: with targets enabled (positive per-rating target) the
rating-balanced selector admits at most `target` records into each
clamped rating bucket; with targets disabled it returns every input
record exactly once — a permutation of the input — sorted by timestamp
descending. -/
theorem limit_per_rating_balanced (per_rating_target : Int)
    (records : List ReviewRecord) :
    (0 < per_rating_target →
      ∀ b : Int,
        (((_limit_per_rating per_rating_target records).countP
            fun r => decide (clampRating r.rating = b)) : Int) ≤ per_rating_target) ∧
    (per_rating_target ≤ 0 →
      (_limit_per_rating per_rating_target records).Perm records ∧
      List.Pairwise (fun a b => b.date ≤ a.date)
        (_limit_per_rating per_rating_target records)) := by
  constructor
  · intro ht b
    have h := limitGo_countP_le b (sortByDateDesc records)
      (RatingCounts.const per_rating_target.toNat)
    have hg : (RatingCounts.const per_rating_target.toNat).get b ≤ per_rating_target.toNat := by
      simp only [RatingCounts.const, RatingCounts.get]
      split_ifs <;> simp
    unfold _limit_per_rating
    rw [if_neg (by omega)]
    omega
  · intro ht
    unfold _limit_per_rating
    rw [if_pos ht]
    exact ⟨sortByDateDesc_perm _, sortByDateDesc_sorted _⟩

/-- Witness for C1: target 1, two concrete five-star records, bucket 5. -/
theorem limit_per_rating_balanced_witness :
    (0 : Int) < 1 ∧
    (((_limit_per_rating 1
        [{ review_id := "a", title := "t", text := "x", rating := 5, date := 0,
           author := none, product_tag := none },
         { review_id := "b", title := "t", text := "x", rating := 5, date := 1,
           author := none, product_tag := none }]).countP
        fun r => decide (clampRating r.rating = 5)) : Int) ≤ 1 :=
  ⟨by decide,
    (limit_per_rating_balanced 1
      [{ review_id := "a", title := "t", text := "x", rating := 5, date := 0,
         author := none, product_tag := none },
       { review_id := "b", title := "t", text := "x", rating := 5, date := 1,
         author := none, product_tag := none }]).1 (by decide) 5⟩

/-- C6 amended: the record list `fetch_reviews` returns for one window is
sorted by timestamp descending (its final step sorts); the combined list
`_fetch_multi_window` builds across slices keeps dict insertion order and
is persisted without a further sort. -/
theorem fetch_reviews_sorted_desc (per_rating_target window_start window_end : Int)
    (combined_values : List ReviewRecord) :
    List.Pairwise (fun a b => b.date ≤ a.date)
      (fetch_reviews_result per_rating_target window_start window_end combined_values) :=
  sortByDateDesc_sorted _

/-- A Bool that is not true is false. -/
theorem boolNotTrue {b : Bool} (h : ¬b = true) : b = false := by
  cases b
  · rfl
  · exact absurd rfl h

/-- Ingesting zero pages leaves the loop state unchanged. -/
theorem stateAfter_zero (we : Int) (pages : List Page) (st : LoopState) :
    stateAfter we pages st 0 = st := rfl

/-- With no pages to ingest the loop state never changes. -/
theorem stateAfter_nil (we : Int) (st : LoopState) (k : Nat) :
    stateAfter we [] st k = st := by
  simp [stateAfter]

/-- Peeling one ingested page off the page-prefix state. -/
theorem stateAfter_cons (we : Int) (pg : Page) (rest : List Page) (st : LoopState)
    (k : Nat) :
    stateAfter we (pg :: rest) st (k + 1) = stateAfter we rest (ingestPage we st pg) k := by
  simp [stateAfter, List.take_succ_cons]

/-- The state after the first page is that page ingested. -/
theorem stateAfter_one (we : Int) (pg : Page) (rest : List Page) (st : LoopState) :
    stateAfter we (pg :: rest) st 1 = ingestPage we st pg := by
  rw [stateAfter_cons]
  rfl

/-- Index shift for looking up a positive position in a cons list. -/
theorem getElem_cons_pred (pg : Page) (rest : List Page) (k : Nat) (h : 0 < k) :
    (pg :: rest)[k]? = rest[k - 1]? := by
  obtain ⟨m, rfl⟩ : ∃ m, k = m + 1 := ⟨k - 1, by omega⟩
  simp

/-- C4: the single-axis fetch loop stops exactly at the first of the four
conditions of the claim and at nothing else.  For every supplied response
sequence, the loop consumes a prefix of `n` pages and returns the state
obtained by ingesting exactly those pages; it continued past a page only
while no stop condition held there (conjuncts three and four: the
`max_reviews` head check and the per-page conditions were all false
earlier); each stop reason implies its condition held at the stopping
page, with the conditions the code checks first (empty page, then
targets, then token) excluded for later reasons; running off the supplied
responses (`exhausted`) means no condition ever fired; and whenever the
loop stopped early some condition was true at the last page.  In
particular a page response carrying records but no continuation token
ends the loop normally with reason `noToken` — the function is total, so
no error is raised.  -/
theorem fetch_loop_stop_characterisation (max_reviews target window_end : Int)
    (pages : List Page) (st : LoopState) :
    ∀ stF reason n,
      fetchLoop max_reviews target window_end pages st = (stF, reason, n) →
      n ≤ pages.length ∧
      stF = stateAfter window_end pages st n ∧
      (0 < n → (st.collected.length : Int) < max_reviews) ∧
      (∀ i pg, pages[i]? = some pg → i + 1 < n →
          specStopAfter max_reviews target pg
            (stateAfter window_end pages st (i + 1)) = false) ∧
      (reason = .maxReached →
          max_reviews ≤ ((stateAfter window_end pages st n).collected.length : Int)) ∧
      (reason = .emptyPage →
          0 < n ∧ ∃ pg, pages[n - 1]? = some pg ∧ pg.records = []) ∧
      (reason = .targetsMet →
          0 < n ∧ ∃ pg, pages[n - 1]? = some pg ∧ pg.records ≠ [] ∧
            _targets_met target (stateAfter window_end pages st n).rating_counts = true) ∧
      (reason = .noToken →
          0 < n ∧ ∃ pg, pages[n - 1]? = some pg ∧ pg.records ≠ [] ∧ pg.token = none ∧
            _targets_met target (stateAfter window_end pages st n).rating_counts = false) ∧
      (reason = .exhausted →
          n = pages.length ∧
          ((stateAfter window_end pages st n).collected.length : Int) < max_reviews ∧
          (∀ pg, pages[n - 1]? = some pg → 0 < n →
              specStopAfter max_reviews target pg
                (stateAfter window_end pages st n) = false)) ∧
      (0 < n → reason ≠ .exhausted →
          ∃ pg, pages[n - 1]? = some pg ∧
            specStopAfter max_reviews target pg
              (stateAfter window_end pages st n) = true) := by
  induction pages generalizing st with
  | nil =>
    intro stF reason n h
    simp only [fetchLoop] at h
    by_cases hm : (st.collected.length : Int) < max_reviews
    · rw [if_pos hm] at h
      cases h
      refine ⟨le_refl _, (stateAfter_nil _ _ _).symm, by omega, ?_, ?_, ?_, ?_, ?_, ?_, ?_⟩
      · intro i pg hpg; simp at hpg
      · intro hr; cases hr
      · intro hr; cases hr
      · intro hr; cases hr
      · intro hr; cases hr
      · intro _
        refine ⟨rfl, by rw [stateAfter_nil]; exact hm, ?_⟩
        intro pg hpg; simp at hpg
      · intro h0; omega
    · rw [if_neg hm] at h
      cases h
      refine ⟨le_refl _, (stateAfter_nil _ _ _).symm, by omega, ?_, ?_, ?_, ?_, ?_, ?_, ?_⟩
      · intro i pg hpg; simp at hpg
      · intro _; rw [stateAfter_nil]; omega
      · intro hr; cases hr
      · intro hr; cases hr
      · intro hr; cases hr
      · intro hr; cases hr
      · intro h0; omega
  | cons pg rest ih =>
    intro stF reason n h
    simp only [fetchLoop] at h
    by_cases hm : (st.collected.length : Int) < max_reviews
    swap
    · rw [if_neg hm] at h
      cases h
      refine ⟨by simp, rfl, by omega, ?_, ?_, ?_, ?_, ?_, ?_, ?_⟩
      · intro i pgi hpgi hlt; omega
      · intro _; exact le_of_not_lt hm
      · intro hr; cases hr
      · intro hr; cases hr
      · intro hr; cases hr
      · intro hr; cases hr
      · intro h0; omega
    rw [if_pos hm] at h
    by_cases hz : pg.records.isEmpty = true
    · rw [if_pos hz] at h
      cases h
      have hrecs : pg.records = [] := by simpa using hz
      have hst1 : stateAfter window_end (pg :: rest) st 1 = st := by
        rw [stateAfter_one]
        simp [ingestPage, hrecs]
      refine ⟨by simp, hst1.symm, fun _ => hm, ?_, ?_, ?_, ?_, ?_, ?_, ?_⟩
      · intro i pgi hpgi hlt; omega
      · intro hr; cases hr
      · intro _; exact ⟨by omega, pg, by simp, hrecs⟩
      · intro hr; cases hr
      · intro hr; cases hr
      · intro hr; cases hr
      · intro _ _
        exact ⟨pg, by simp, by simp [specStopAfter, hz]⟩
    rw [if_neg hz] at h
    by_cases htm : _targets_met target (ingestPage window_end st pg).rating_counts = true
    · rw [if_pos htm] at h
      cases h
      have hrecs : pg.records ≠ [] := by simpa using hz
      have hst1 : stateAfter window_end (pg :: rest) st 1 = ingestPage window_end st pg :=
        stateAfter_one _ _ _ _
      refine ⟨by simp, hst1.symm, fun _ => hm, ?_, ?_, ?_, ?_, ?_, ?_, ?_⟩
      · intro i pgi hpgi hlt; omega
      · intro hr; cases hr
      · intro hr; cases hr
      · intro _
        exact ⟨by omega, pg, by simp, hrecs, by rw [hst1]; exact htm⟩
      · intro hr; cases hr
      · intro hr; cases hr
      · intro _ _
        exact ⟨pg, by simp, by simp [specStopAfter, hst1, htm]⟩
    rw [if_neg htm] at h
    by_cases htk : pg.token.isNone = true
    · rw [if_pos htk] at h
      cases h
      have hrecs : pg.records ≠ [] := by simpa using hz
      have htok : pg.token = none := by simpa [Option.isNone_iff_eq_none] using htk
      have hst1 : stateAfter window_end (pg :: rest) st 1 = ingestPage window_end st pg :=
        stateAfter_one _ _ _ _
      have htm2 : _targets_met target
          (stateAfter window_end (pg :: rest) st 1).rating_counts = false := by
        rw [hst1]
        simpa using htm
      refine ⟨by simp, hst1.symm, fun _ => hm, ?_, ?_, ?_, ?_, ?_, ?_, ?_⟩
      · intro i pgi hpgi hlt; omega
      · intro hr; cases hr
      · intro hr; cases hr
      · intro hr; cases hr
      · intro _
        exact ⟨by omega, pg, by simp, hrecs, htok, htm2⟩
      · intro hr; cases hr
      · intro _ _
        exact ⟨pg, by simp, by simp [specStopAfter, htk]⟩
    rw [if_neg htk] at h
    obtain ⟨req1, req2, req3, req4, req5, req6, req7, req8, req9, req10⟩ :=
      ih (ingestPage window_end st pg)
        (fetchLoop max_reviews target window_end rest (ingestPage window_end st pg)).1
        (fetchLoop max_reviews target window_end rest (ingestPage window_end st pg)).2.1
        (fetchLoop max_reviews target window_end rest (ingestPage window_end st pg)).2.2
        rfl
    cases h
    set st2 := ingestPage window_end st pg with hst2
    set r := fetchLoop max_reviews target window_end rest st2 with hr
    have hstc : ∀ k : Nat, stateAfter window_end (pg :: rest) st (k + 1) =
        stateAfter window_end rest st2 k := fun k => stateAfter_cons _ _ _ _ _
    have hidx : ∀ k : Nat, 0 < k → (pg :: rest)[k]? = rest[k - 1]? :=
      getElem_cons_pred pg rest
    refine ⟨by simp; omega, ?_, fun _ => hm, ?_, ?_, ?_, ?_, ?_, ?_, ?_⟩
    · rw [hstc]; exact req2
    · intro i pgi hpgi hlt
      cases i with
      | zero =>
        simp at hpgi
        subst hpgi
        rw [hstc 0, stateAfter_zero]
        have hlen : (st2.collected.length : Int) < max_reviews := req3 (by omega)
        simp only [specStopAfter, Bool.or_eq_false_iff]
        refine ⟨⟨⟨boolNotTrue hz, boolNotTrue htk⟩, ?_⟩, boolNotTrue htm⟩
        simp only [decide_eq_false_iff_not]
        omega
      | succ i2 =>
        have : (pg :: rest)[i2 + 1]? = rest[i2]? := by simp
        rw [this] at hpgi
        rw [hstc (i2 + 1)]
        exact req4 i2 pgi hpgi (by omega)
    · intro hre
      rw [hstc]
      exact req5 hre
    · intro hre
      obtain ⟨hn0, pgl, hpgl, hrecl⟩ := req6 hre
      refine ⟨by omega, pgl, ?_, hrecl⟩
      rw [hidx (r.2.2 + 1 - 1) (by omega)]
      simpa using hpgl
    · intro hre
      obtain ⟨hn0, pgl, hpgl, hrecl, html⟩ := req7 hre
      refine ⟨by omega, pgl, ?_, hrecl, ?_⟩
      · rw [hidx (r.2.2 + 1 - 1) (by omega)]
        simpa using hpgl
      · rw [show r.2.2 + 1 = r.2.2 + 1 from rfl, hstc r.2.2]
        exact html
    · intro hre
      obtain ⟨hn0, pgl, hpgl, hrecl, htokl, html⟩ := req8 hre
      refine ⟨by omega, pgl, ?_, hrecl, htokl, ?_⟩
      · rw [hidx (r.2.2 + 1 - 1) (by omega)]
        simpa using hpgl
      · rw [hstc r.2.2]
        exact html
    · intro hre
      obtain ⟨hlen, hlt, hlast⟩ := req9 hre
      refine ⟨by simp [hlen], ?_, ?_⟩
      · rw [hstc]; exact hlt
      · intro pgl hpgl _
        by_cases hn0 : 0 < r.2.2
        · rw [hidx (r.2.2 + 1 - 1) (by omega)] at hpgl
          rw [hstc r.2.2]
          refine hlast pgl ?_ hn0
          simpa using hpgl
        · have hzero : r.2.2 = 0 := by omega
          rw [hzero] at hpgl
          simp at hpgl
          subst hpgl
          have hlen2 : (st2.collected.length : Int) < max_reviews := by
            have h9 := hlt
            rw [hzero, stateAfter_zero] at h9
            exact h9
          rw [hstc r.2.2, hzero, stateAfter_zero]
          simp only [specStopAfter, Bool.or_eq_false_iff]
          refine ⟨⟨⟨boolNotTrue hz, boolNotTrue htk⟩, ?_⟩, boolNotTrue htm⟩
          simp only [decide_eq_false_iff_not]
          omega
    · intro _ hne
      by_cases hn0 : 0 < r.2.2
      · obtain ⟨pgl, hpgl, hspec⟩ := req10 hn0 hne
        refine ⟨pgl, ?_, ?_⟩
        · rw [hidx (r.2.2 + 1 - 1) (by omega)]
          simpa using hpgl
        · rw [hstc r.2.2]
          exact hspec
      · have hzero : r.2.2 = 0 := by omega
        cases hrsn : r.2.1 with
        | maxReached =>
          have hlen2 := req5 hrsn
          rw [hzero, stateAfter_zero] at hlen2
          refine ⟨pg, by simp [hzero], ?_⟩
          rw [hzero, hstc 0, stateAfter_zero]
          simp only [specStopAfter, Bool.or_eq_true, decide_eq_true_eq]
          exact Or.inl (Or.inr hlen2)
        | emptyPage => exact absurd (req6 hrsn).1 (by omega)
        | targetsMet => exact absurd (req7 hrsn).1 (by omega)
        | noToken => exact absurd (req8 hrsn).1 (by omega)
        | exhausted => exact absurd hrsn hne


/-- Witness for C4: a two-page run (first page has records and a token,
second page has records but no token) consumes both pages, and the loop
continued past the first page because no stop condition held there. -/
theorem fetch_loop_stop_characterisation_witness :
    0 + 1 < (fetchLoop 10 1 100
      [⟨[⟨"a", "t", "x", 1, 10, none, none⟩], some "tok"⟩, ⟨[⟨"b", "t", "x", 2, 20, none, none⟩], none⟩]
      ⟨[], [], .const 0⟩).2.2 ∧
    specStopAfter 10 1 ⟨[⟨"a", "t", "x", 1, 10, none, none⟩], some "tok"⟩
      (stateAfter 100
        [⟨[⟨"a", "t", "x", 1, 10, none, none⟩], some "tok"⟩, ⟨[⟨"b", "t", "x", 2, 20, none, none⟩], none⟩]
        ⟨[], [], .const 0⟩ (0 + 1)) = false :=
  ⟨by decide,
    (fetch_loop_stop_characterisation 10 1 100
      [⟨[⟨"a", "t", "x", 1, 10, none, none⟩], some "tok"⟩, ⟨[⟨"b", "t", "x", 2, 20, none, none⟩], none⟩]
      ⟨[], [], .const 0⟩ _ _ _ rfl).2.2.2.1 0
      ⟨[⟨"a", "t", "x", 1, 10, none, none⟩], some "tok"⟩ (by rfl) (by decide)⟩

end Milestone2
